import Mathlib

/-!
Verification of the wine_chroot utility against its specification.

The Python sources are shallowly embedded: paths and other strings become
`List Char`, pure string functions become Lean functions, and each
process-orchestration routine becomes a function over an explicit
environment record describing the outcomes of the external commands it
would run, together with a count of the process-execution primitives
(`subprocess.run` / `subprocess.Popen`) it invokes.
-/

/-! ## Path translator (src/wine_chroot/utils.py) -/

/-- Test for the regex `^[A-Za-z]:\\` used by both converters in
`utils.py`: an ASCII letter, a colon and a backslash. -/
def isDrivePrefixed : List Char → Bool
  | c :: d :: e :: _ =>
      (('A' ≤ c && c ≤ 'Z') || ('a' ≤ c && c ≤ 'z')) && d == ':' && e == '\\'
  | _ => false

/-- Boolean test that `pat` is a leading segment of `s`. -/
def startsWith : List Char → List Char → Bool
  | [], _ => true
  | _ :: _, [] => false
  | a :: as, b :: bs => a == b && startsWith as bs

/-- Split `s` at the first occurrence of `pat`, returning the part before
and the part after, exactly like Python's `s.split(pat, 1)` when `pat`
occurs in `s`; `none` when it does not occur. -/
def splitFirst (pat : List Char) : List Char → Option (List Char × List Char)
  | [] => none
  | c :: rest =>
      if startsWith pat (c :: rest) then some ([], (c :: rest).drop pat.length)
      else
        match splitFirst pat rest with
        | some pr => some (c :: pr.fst, pr.snd)
        | none => none

/-- Python's `pat in s` membership test on strings. -/
def containsSub (pat s : List Char) : Bool :=
  (splitFirst pat s).isSome

/-- The literal marker `drive_c/` from `linux_path_to_windows`. -/
def driveC : List Char := ['d', 'r', 'i', 'v', 'e', '_', 'c', '/']

/-- The path component `root` used by `windows_path_to_linux`. -/
def rootSeg : List Char := ['r', 'o', 'o', 't']

/-- The path component `drive_c` used by `windows_path_to_linux`. -/
def driveSeg : List Char := ['d', 'r', 'i', 'v', 'e', '_', 'c']

/-- Character map underlying `after.replace("/", "\\")`. -/
def toBack (c : Char) : Char := if c = '/' then '\\' else c

/-- Character map underlying `win_path.replace("\\", "/")`. -/
def toFwd (c : Char) : Char := if c = '\\' then '/' else c

/-- `utils.linux_path_to_windows`: return the input unchanged when it
already matches `^[A-Za-z]:\\`; else, when it contains `drive_c/`, take
everything after the first occurrence, turn slashes into backslashes and
prepend `C:\`; else return the input unchanged. -/
def linux_path_to_windows (p : List Char) : List Char :=
  if isDrivePrefixed p then p
  else
    match splitFirst driveC p with
    | some pr => 'C' :: ':' :: '\\' :: pr.snd.map toBack
    | none => p

/-- The `/` join of `pathlib` on already-normalized components: an empty
right operand leaves the base unchanged, an absolute right operand
discards the base, and otherwise a single separator is inserted. -/
def pathJoin (base comp : List Char) : List Char :=
  match comp with
  | [] => base
  | c :: _ => if c = '/' then comp else base ++ '/' :: comp

/-- `utils.windows_path_to_linux`: strip a three-character drive marker
when the input matches `^[A-Za-z]:\\`, turn backslashes into slashes and
join the remainder under `chroot/root/<wp>/drive_c`. -/
def windows_path_to_linux (w chroot wp : List Char) : List Char :=
  let stripped := if isDrivePrefixed w then w.drop 3 else w
  let linuxPart := stripped.map toFwd
  pathJoin (pathJoin (pathJoin (pathJoin chroot rootSeg) wp) driveSeg) linuxPart

/-! ## slugify (src/wine_chroot/utils.py) -/

/-- Membership in the character class `[a-z0-9]` of the slug regex. -/
def isSlugChar (c : Char) : Bool :=
  ('a' ≤ c && c ≤ 'z') || ('0' ≤ c && c ≤ '9')

/-- ASCII lowering, the effect of `str.lower` on the alphabet relevant to
slugs (every non-ASCII character is subsequently collapsed to `-`). -/
def lowerChar (c : Char) : Char :=
  if 'A' ≤ c && c ≤ 'Z' then Char.ofNat (c.toNat + 32) else c

/-- First half of `re.sub(r"[^a-z0-9]+", "-", s)`: send every character
outside `[a-z0-9]` to `-`. -/
def dashMap (c : Char) : Char := if isSlugChar c then c else '-'

/-- Second half of `re.sub(r"[^a-z0-9]+", "-", s)`: collapse adjacent
dashes so an entire run is replaced by a single dash. -/
def squeezeDash : List Char → List Char
  | [] => []
  | [c] => [c]
  | c :: d :: rest =>
      if c = '-' ∧ d = '-' then squeezeDash (d :: rest)
      else c :: squeezeDash (d :: rest)

/-- Remove a trailing run of dashes, the right half of `strip("-")`. -/
def dropTrail : List Char → List Char
  | [] => []
  | c :: rest =>
      match dropTrail rest with
      | [] => if c = '-' then [] else [c]
      | r => c :: r

/-- Python's `strip("-")`. -/
def stripDash (s : List Char) : List Char :=
  dropTrail (s.dropWhile (fun c => c = '-'))

/-- `utils.slugify`: lowercase, collapse runs of non-alphanumerics to a
single dash, strip leading and trailing dashes. -/
def slugify (s : List Char) : List Char :=
  stripDash (squeezeDash ((s.map lowerChar).map dashMap))

/-- No two adjacent dashes anywhere in the list. -/
def noDoubleDash : List Char → Bool
  | [] => true
  | [_] => true
  | c :: d :: rest => !(c == '-' && d == '-') && noDoubleDash (d :: rest)

/-- The language of `^[a-z0-9]+(-[a-z0-9]+)*$`: nonempty, drawn from
`[a-z0-9-]`, no leading or trailing dash, no two adjacent dashes. -/
def slugShaped (s : List Char) : Bool :=
  !s.isEmpty &&
  s.all (fun c => isSlugChar c || c == '-') &&
  (match s.head? with | some c => !(c == '-') | none => true) &&
  (match s.getLast? with | some c => !(c == '-') | none => true) &&
  noDoubleDash s

/-- Character class of finished slugs: `[a-z0-9]` or `-`. -/
def slugAlphabet (c : Char) : Bool := isSlugChar c || c == '-'

/-- The path `p` is well formed under the chroot root `chroot` and Wine
prefix `wp`: it decomposes as `<chroot>/root/<wp>/drive_c/<rest>` where
the chroot path is host-absolute, the prefix and remainder are relative
nonempty components, the remainder contains no backslash (Wine paths do
not), and the structural `drive_c/` is the first occurrence in `p`. -/
def wfUnder (chroot wp p : List Char) : Prop :=
  ∃ rest : List Char,
    p = chroot ++ ('/' :: rootSeg) ++ ('/' :: wp) ++ ('/' :: driveSeg) ++ ('/' :: rest) ∧
    chroot.head? = some '/' ∧
    wp ≠ [] ∧ wp.head? ≠ some '/' ∧
    rest ≠ [] ∧ rest.head? ≠ some '/' ∧
    '\\' ∉ rest ∧
    (∀ i, i < (chroot ++ ('/' :: rootSeg) ++ ('/' :: wp) ++ ['/']).length →
      startsWith driveC (p.drop i) = false)

/-! ## Chroot bootstrapper (src/wine_chroot/chroot.py)

`ChrootManager.initialize` runs ten ordered steps, each shelling out to
external commands.  The outside world is abstracted into `ChrootEnv`:
one Boolean per external command recording whether that command would
succeed, plus the filesystem facts the sequence consults.  Each step
returns a `StepRes` holding its reported success, whether it emitted a
warning for an internal failure, and how many process-execution
primitives (`subprocess.run`) it invoked. -/

/-- Outcomes of the external world consulted by `ChrootManager.initialize`.
`prereqs_ok` is the result of `check_prerequisites` (computed with
`shutil.which` and `Path.exists`, no subprocess); `sudo_probe_ok` is the
outcome of the `sudo -n true` probe in `check_root_access`;
`path_exists` is `chroot_path.exists()`; the remaining fields give the
success of each individual external command, in program order. -/
structure ChrootEnv where
  prereqs_ok : Bool
  sudo_probe_ok : Bool
  path_exists : Bool
  deboot_ok : Bool
  schroot_tee_ok : Bool
  fstab_exists : Bool
  fstab_cp_ok : Bool
  fstab_tee_ok : Bool
  loc_update_ok : Bool
  loc_install_ok : Bool
  loc_gen_ok : Bool
  repo_tee_ok : Bool
  repo_update_ok : Bool
  arch_add_ok : Bool
  arch_update_ok : Bool
  wine_install_ok : Bool
  verify_echo_ok : Bool
  verify_wine_ok : Bool

/-- Result of one bootstrap step: the Boolean it returns to `initialize`,
whether it downgraded an internal failure to a warning, and how many
subprocess invocations it performed. -/
structure StepRes where
  ok : Bool
  warned : Bool
  calls : Nat

/-- `ChrootManager._run_debootstrap`: in dry-run mode print and report
success with no invocation; otherwise one `debootstrap` invocation whose
success is the step's result. -/
def run_debootstrap (env : ChrootEnv) (dry : Bool) : StepRes :=
  if dry then ⟨true, false, 0⟩ else ⟨env.deboot_ok, false, 1⟩

/-- `ChrootManager._configure_schroot`: dry-run is a reporting no-op;
otherwise one `sudo tee` invocation writing the schroot descriptor. -/
def configure_schroot (env : ChrootEnv) (dry : Bool) : StepRes :=
  if dry then ⟨true, false, 0⟩ else ⟨env.schroot_tee_ok, false, 1⟩

/-- `ChrootManager._configure_fstab`: dry-run is a reporting no-op;
otherwise a backup `cp` when the fstab already exists, then `sudo tee`;
a failed command aborts the step as a failure. -/
def configure_fstab (env : ChrootEnv) (dry : Bool) : StepRes :=
  if dry then ⟨true, false, 0⟩
  else if env.fstab_exists then
    if env.fstab_cp_ok then ⟨env.fstab_tee_ok, false, 2⟩ else ⟨false, false, 1⟩
  else ⟨env.fstab_tee_ok, false, 1⟩

/-- `ChrootManager._configure_locales`: dry-run is a reporting no-op;
otherwise `apt update`, `apt install locales`, `locale-gen` in sequence,
stopping at the first failure — but every failure is caught, logged as a
warning, and reported as success (`return True  # Non-critical`). -/
def configure_locales (env : ChrootEnv) (dry : Bool) : StepRes :=
  if dry then ⟨true, false, 0⟩
  else if !env.loc_update_ok then ⟨true, true, 1⟩
  else if !env.loc_install_ok then ⟨true, true, 2⟩
  else if !env.loc_gen_ok then ⟨true, true, 3⟩
  else ⟨true, false, 3⟩

/-- `ChrootManager._configure_repositories`: dry-run is a reporting
no-op; otherwise write `sources.list` then `apt update`; every failure
is caught, warned about and reported as success. -/
def configure_repositories (env : ChrootEnv) (dry : Bool) : StepRes :=
  if dry then ⟨true, false, 0⟩
  else if !env.repo_tee_ok then ⟨true, true, 1⟩
  else if !env.repo_update_ok then ⟨true, true, 2⟩
  else ⟨true, false, 2⟩

/-- `ChrootManager._enable_i386`: dry-run is a reporting no-op; otherwise
`dpkg --add-architecture i386` then `apt update`; every failure is
caught, warned about and reported as success. -/
def enable_i386 (env : ChrootEnv) (dry : Bool) : StepRes :=
  if dry then ⟨true, false, 0⟩
  else if !env.arch_add_ok then ⟨true, true, 1⟩
  else if !env.arch_update_ok then ⟨true, true, 2⟩
  else ⟨true, false, 2⟩

/-- `ChrootManager._install_wine`: dry-run is a reporting no-op;
otherwise one `apt install` invocation whose success is the result. -/
def install_wine (env : ChrootEnv) (dry : Bool) : StepRes :=
  if dry then ⟨true, false, 0⟩ else ⟨env.wine_install_ok, false, 1⟩

/-- `ChrootManager._verify_installation` (only called outside dry-run):
enter the chroot with `echo test`, then query `wine --version`; a failure
of either is reported as a warning and the step returns failure. -/
def verify_inst (env : ChrootEnv) : StepRes :=
  if !env.verify_echo_ok then ⟨false, true, 1⟩
  else if !env.verify_wine_ok then ⟨false, true, 2⟩
  else ⟨true, false, 2⟩

/-- Per-category counts of process-execution primitives invoked during
one run of `initialize`: the `sudo -n true` probe of
`check_root_access`, then one slot per bootstrap step. -/
structure Calls where
  sudoProbe : Nat
  deboot : Nat
  schrootConf : Nat
  fstab : Nat
  locales : Nat
  repos : Nat
  arch32 : Nat
  wine : Nat
  verify : Nat

/-- Total number of process-execution primitives invoked. -/
def Calls.total (c : Calls) : Nat :=
  c.sudoProbe + c.deboot + c.schrootConf + c.fstab + c.locales +
    c.repos + c.arch32 + c.wine + c.verify

/-- `ChrootManager.initialize`: the ten-step sequence.  The prerequisite
check is a hard gate using no subprocess; `check_root_access` then always
runs its single `sudo -n true` probe (its result only produces a
warning); an existing target path is a hard failure; debootstrap, schroot
registration and fstab are hard gates; locales, repositories and i386 are
soft steps; Wine installation is a hard gate unless skipped; verification
runs only outside dry-run and its failure only warns.  Returns the
Boolean `initialize` reports together with the invocation counts. -/
def initChroot (env : ChrootEnv) (skip_wine dry_run : Bool) : Bool × Calls :=
  if !env.prereqs_ok then (false, ⟨0, 0, 0, 0, 0, 0, 0, 0, 0⟩)
  else
    let d := run_debootstrap env dry_run
    let s := configure_schroot env dry_run
    let f := configure_fstab env dry_run
    let lc := configure_locales env dry_run
    let rp := configure_repositories env dry_run
    let ar := enable_i386 env dry_run
    let w := if skip_wine then (⟨true, false, 0⟩ : StepRes) else install_wine env dry_run
    let v := if dry_run then (⟨true, false, 0⟩ : StepRes) else verify_inst env
    if env.path_exists then (false, ⟨1, 0, 0, 0, 0, 0, 0, 0, 0⟩)
    else if !d.ok then (false, ⟨1, d.calls, 0, 0, 0, 0, 0, 0, 0⟩)
    else if !s.ok then (false, ⟨1, d.calls, s.calls, 0, 0, 0, 0, 0, 0⟩)
    else if !f.ok then (false, ⟨1, d.calls, s.calls, f.calls, 0, 0, 0, 0, 0⟩)
    else if !lc.ok then (false, ⟨1, d.calls, s.calls, f.calls, lc.calls, 0, 0, 0, 0⟩)
    else if !rp.ok then (false, ⟨1, d.calls, s.calls, f.calls, lc.calls, rp.calls, 0, 0, 0⟩)
    else if !ar.ok then
      (false, ⟨1, d.calls, s.calls, f.calls, lc.calls, rp.calls, ar.calls, 0, 0⟩)
    else if !w.ok then
      (false, ⟨1, d.calls, s.calls, f.calls, lc.calls, rp.calls, ar.calls, w.calls, 0⟩)
    else
      (true, ⟨1, d.calls, s.calls, f.calls, lc.calls, rp.calls, ar.calls, w.calls, v.calls⟩)

/-! ## Application runner (src/wine_chroot/runner.py) -/

/-- How `WineRunner.run` executed the command: synchronously via
`subprocess.run`, or detached via `subprocess.Popen` with
`start_new_session=True`. -/
inductive ExecMode where
  | sync : ExecMode
  | background : ExecMode
deriving DecidableEq

/-- External facts consulted by `WineRunner.run`: whether spawning the
privilege tool succeeds (otherwise `FileNotFoundError` is raised), and
the exit code of the child when it is run synchronously. -/
structure RunEnv where
  spawn_ok : Bool
  child_code : Int

/-- Result of `WineRunner.run`: either the returned exit code together
with the execution mode, or the `SystemExit` raised when the privilege
tool is missing. -/
inductive RunOutcome where
  | exited : Int → ExecMode → RunOutcome
  | sysExit : Nat → RunOutcome
deriving DecidableEq

/-- `WineRunner.run`, execution phase: when `wait` or `show_terminal` is
requested the command runs synchronously and `result.returncode` is
returned verbatim; otherwise the process is detached in a new session
and `0` is returned immediately.  A missing privilege tool raises
`SystemExit(1)` in either branch. -/
def wineRunnerRun (env : RunEnv) (wait show_terminal : Bool) : RunOutcome :=
  if !env.spawn_ok then .sysExit 1
  else if wait || show_terminal then .exited env.child_code .sync
  else .exited 0 .background

/-! ## Icon extractor (src/wine_chroot/icons.py) -/

/-- External facts consulted by `extract_icon`: the presence of the two
tools, the success of each pipeline stage, whether `wrestool` actually
produced the `.ico` file, and the `.png` filenames the `icotool` stage
left in the temporary directory. -/
structure IconEnv where
  wrestool_found : Bool
  icotool_found : Bool
  wrestool_ok : Bool
  ico_exists : Bool
  icotool_ok : Bool
  pngs : List (List Char)

/-- Lexicographic string order used by Python's `sorted` on filenames. -/
def strLe : List Char → List Char → Bool
  | [], _ => true
  | _ :: _, [] => false
  | a :: as, b :: bs => if a < b then true else if b < a then false else strLe as bs

/-- Insert into a lexicographically sorted list of names. -/
def insertSorted (x : List Char) : List (List Char) → List (List Char)
  | [] => [x]
  | y :: ys => if strLe x y then x :: y :: ys else y :: insertSorted x ys

/-- Python's `sorted` on a list of names. -/
def sortStrs : List (List Char) → List (List Char)
  | [] => []
  | x :: xs => insertSorted x (sortStrs xs)

/-- Result of `extract_icon`: the returned path (or `none`), the source
file copied into the destination directory when one was, and whether the
destination icon directory was created. -/
structure IconOut where
  result : Option (List Char)
  copiedFrom : Option (List Char)
  madeDestDir : Bool
deriving DecidableEq

/-- `icons.extract_icon`: check both tools, run `wrestool`, require the
`.ico` to exist, run `icotool`, sort the produced `.png` names and take
the last; only then create the destination directory and copy the chosen
file to `icon_dir/icon_name.png`.  Every failure returns `none` without
touching the destination directory. -/
def extract_icon (env : IconEnv) (icon_dir icon_name : List Char) : IconOut :=
  if !env.wrestool_found then ⟨none, none, false⟩
  else if !env.icotool_found then ⟨none, none, false⟩
  else if !env.wrestool_ok then ⟨none, none, false⟩
  else if !env.ico_exists then ⟨none, none, false⟩
  else if !env.icotool_ok then ⟨none, none, false⟩
  else
    match (sortStrs env.pngs).getLast? with
    | none => ⟨none, none, false⟩
    | some chosen =>
        ⟨some (icon_dir ++ '/' :: icon_name ++ ['.', 'p', 'n', 'g']), some chosen, true⟩

/-! ## Launcher generator (src/wine_chroot/desktop.py) -/

/-- Filename selection in `DesktopManager.create_launcher`: slugify the
application name when no custom filename is given, otherwise append
`.desktop` unless already present. -/
def desktopFileName (appName : List Char) (custom : Option (List Char)) : List Char :=
  match custom with
  | none => slugify appName ++ ['.', 'd', 'e', 's', 'k', 't', 'o', 'p']
  | some f =>
      if startsWith ['.', 'd', 'e', 's', 'k', 't', 'o', 'p'].reverse f.reverse then f
      else f ++ ['.', 'd', 'e', 's', 'k', 't', 'o', 'p']

/-- The `Exec` line built by `DesktopManager.create_launcher`: privilege
tool, `schroot -c <name> -- wine`, and the translated path in double
quotes. -/
def execLine (usePk : Bool) (chrootName winPath : List Char) : List Char :=
  "Exec=".data ++ (if usePk then "pkexec".data else "sudo".data) ++
    " schroot -c ".data ++ chrootName ++ " -- wine ".data ++
    ('"' :: winPath ++ ['"'])

/-- An environment in which every external command would succeed but the
target path already exists. -/
def envPathTaken : ChrootEnv :=
  ⟨true, true, true, true, true, true, true, true, true, true, true, true, true, true,
    true, true, true, true⟩

/-! ## Lemmas about the string primitives -/

theorem startsWith_append (pat t : List Char) : startsWith pat (pat ++ t) = true := by
  induction pat with
  | nil => rfl
  | cons a as ih => simp [startsWith, ih]

theorem splitFirst_spec (pat pre post : List Char) (hpat : pat ≠ [])
    (hfirst : ∀ i, i < pre.length → startsWith pat ((pre ++ (pat ++ post)).drop i) = false) :
    splitFirst pat (pre ++ (pat ++ post)) = some (pre, post) := by
  induction pre with
  | nil =>
      match pat, hpat with
      | a :: as, _ =>
        show splitFirst (a :: as) ([] ++ ((a :: as) ++ post)) = some ([], post)
        rw [List.nil_append, List.cons_append]
        unfold splitFirst
        rw [← List.cons_append, startsWith_append]
        simp [List.drop_left]
  | cons c pre' ih =>
      have h0 : startsWith pat ((c :: pre') ++ (pat ++ post)) = false := by
        have := hfirst 0 (by simp)
        simpa using this
      have hrec : splitFirst pat (pre' ++ (pat ++ post)) = some (pre', post) := by
        refine ih ?_
        intro i hi
        have := hfirst (i + 1) (by simpa using Nat.succ_lt_succ hi)
        simpa [List.cons_append] using this
      show splitFirst pat (c :: (pre' ++ (pat ++ post))) = some (c :: pre', post)
      unfold splitFirst
      rw [show (c :: (pre' ++ (pat ++ post))) = (c :: pre') ++ (pat ++ post) from rfl] at *
      rw [h0]
      simp [hrec]

theorem toBack_ne_slash (c : Char) : toBack c ≠ '/' := by
  unfold toBack
  split
  · decide
  · assumption

theorem slash_not_mem_map_toBack (l : List Char) : '/' ∉ l.map toBack := by
  intro h
  rcases List.mem_map.mp h with ⟨c, _, hc⟩
  exact toBack_ne_slash c hc

theorem toFwd_toBack (c : Char) (h : c ≠ '\\') : toFwd (toBack c) = c := by
  unfold toBack toFwd
  by_cases hc : c = '/'
  · simp [hc]
  · simp [hc, h]

theorem map_toFwd_toBack (l : List Char) (h : '\\' ∉ l) : (l.map toBack).map toFwd = l := by
  induction l with
  | nil => rfl
  | cons c t ih =>
      have hc : c ≠ '\\' := fun e => h (e ▸ List.mem_cons_self c t)
      have ht : '\\' ∉ t := fun hm => h (List.mem_cons_of_mem _ hm)
      simp only [List.map_cons, ih ht, toFwd_toBack c hc]

theorem isDrivePrefixed_head (c : Char) (l : List Char)
    (hc : (('A' ≤ c && c ≤ 'Z') || ('a' ≤ c && c ≤ 'z')) = false) :
    isDrivePrefixed (c :: l) = false := by
  match l with
  | [] => rfl
  | [_] => rfl
  | d :: e :: t => simp [isDrivePrefixed, hc]

theorem isDrivePrefixed_slash (l : List Char) (hl : l.head? = some '/') :
    isDrivePrefixed l = false := by
  match l with
  | [] => simp at hl
  | c :: t =>
      have : c = '/' := by simpa using hl
      subst this
      exact isDrivePrefixed_head '/' t (by decide)

/-- C2 counterexample: `"C:\a/drive_c/b"` contains `drive_c/`, yet
`linux_path_to_windows` returns it unchanged because it already matches
`^[A-Za-z]:\\`, so the result still contains a forward slash. -/
theorem c2_counterexample :
    containsSub driveC "C:\\a/drive_c/b".data = true ∧
      '/' ∈ linux_path_to_windows "C:\\a/drive_c/b".data := by decide

/-- C2 (amended): for every string containing `drive_c/` that does not
already match `^[A-Za-z]:\\`, `linux_path_to_windows` produces a string
matching `^[A-Za-z]:\\` with no remaining forward slashes. -/
theorem c2_drive_c_conversion (p : List Char)
    (h1 : containsSub driveC p = true) (h2 : isDrivePrefixed p = false) :
    isDrivePrefixed (linux_path_to_windows p) = true ∧
      '/' ∉ linux_path_to_windows p := by
  unfold containsSub at h1
  unfold linux_path_to_windows
  rw [h2]
  cases hs : splitFirst driveC p with
  | none => rw [hs] at h1; simp at h1
  | some pr =>
      simp only [Bool.false_eq_true, if_false, hs]
      refine ⟨rfl, ?_⟩
      intro hmem
      simp only [List.mem_cons] at hmem
      rcases hmem with h | h | h | h
      · exact absurd h (by decide)
      · exact absurd h (by decide)
      · exact absurd h (by decide)
      · exact slash_not_mem_map_toBack pr.snd h

/-- C2 witness: the amended statement evaluated on the documented
example path. -/
theorem c2_drive_c_conversion_witness :
    isDrivePrefixed (linux_path_to_windows "/srv/debian-amd64/root/.wine/drive_c/Program Files/app.exe".data) = true ∧
      '/' ∉ linux_path_to_windows "/srv/debian-amd64/root/.wine/drive_c/Program Files/app.exe".data :=
  c2_drive_c_conversion _ (by decide) (by decide)

/-! ## The round trip (C3) -/

/-- C3: on every path well formed under a chroot root and Wine prefix,
`windows_path_to_linux` inverts `linux_path_to_windows` with respect to
that root and prefix. -/
theorem c3_round_trip (chroot wp p : List Char) (h : wfUnder chroot wp p) :
    windows_path_to_linux (linux_path_to_windows p) chroot wp = p := by
  obtain ⟨rest, hp, hch, hwpne, hwph, hrne, hrh, hrb, hfirst⟩ := h
  obtain ⟨c0, ct, rfl⟩ : ∃ c0 ct, chroot = c0 :: ct := by
    cases chroot with
    | nil => simp at hch
    | cons a b => exact ⟨a, b, rfl⟩
  have hc0 : c0 = '/' := by simpa using hch
  subst hc0
  obtain ⟨w0, wt, rfl⟩ : ∃ w0 wt, wp = w0 :: wt := by
    cases wp with
    | nil => exact absurd rfl hwpne
    | cons a b => exact ⟨a, b, rfl⟩
  have hw0 : w0 ≠ '/' := by simpa using hwph
  obtain ⟨r0, rt, rfl⟩ : ∃ r0 rt, rest = r0 :: rt := by
    cases rest with
    | nil => exact absurd rfl hrne
    | cons a b => exact ⟨a, b, rfl⟩
  have hr0 : r0 ≠ '/' := by simpa using hrh
  have hdp : isDrivePrefixed p = false := by
    apply isDrivePrefixed_slash
    rw [hp]
    rfl
  have hEq : p = (('/' :: ct) ++ ('/' :: rootSeg) ++ ('/' :: (w0 :: wt)) ++ ['/']) ++
      (driveC ++ (r0 :: rt)) := by
    rw [hp]
    simp [driveC, driveSeg, List.append_assoc]
  have hs : splitFirst driveC p
      = some ((('/' :: ct) ++ ('/' :: rootSeg) ++ ('/' :: (w0 :: wt)) ++ ['/']), r0 :: rt) := by
    rw [hEq]
    refine splitFirst_spec _ _ _ (by decide) ?_
    intro i hi
    rw [← hEq]
    exact hfirst i hi
  have hlin : linux_path_to_windows p = 'C' :: ':' :: '\\' :: (r0 :: rt).map toBack := by
    unfold linux_path_to_windows
    rw [hdp, hs]
    simp
  rw [hlin]
  unfold windows_path_to_linux
  have hdp2 : isDrivePrefixed ('C' :: ':' :: '\\' :: (r0 :: rt).map toBack) = true := rfl
  rw [hdp2]
  simp only [if_true, List.drop_succ_cons, List.drop_zero]
  rw [map_toFwd_toBack _ hrb]
  have j2 : pathJoin (('/' :: ct) ++ '/' :: rootSeg) (w0 :: wt)
      = (('/' :: ct) ++ '/' :: rootSeg) ++ '/' :: w0 :: wt := by
    unfold pathJoin
    simp [hw0]
  rw [show pathJoin ('/' :: ct) rootSeg = ('/' :: ct) ++ '/' :: rootSeg from rfl]
  rw [j2]
  rw [show pathJoin ((('/' :: ct) ++ '/' :: rootSeg) ++ '/' :: w0 :: wt) driveSeg
      = ((('/' :: ct) ++ '/' :: rootSeg) ++ '/' :: w0 :: wt) ++ '/' :: driveSeg from rfl]
  rw [hp]
  unfold pathJoin
  simp [hr0, List.append_assoc]

/-- C3 witness: the round trip evaluated on the documented example. -/
theorem c3_round_trip_witness :
    windows_path_to_linux
        (linux_path_to_windows "/srv/debian-amd64/root/.wine/drive_c/Program Files/app.exe".data)
        "/srv/debian-amd64".data ".wine".data
      = "/srv/debian-amd64/root/.wine/drive_c/Program Files/app.exe".data :=
  c3_round_trip _ _ _ ⟨"Program Files/app.exe".data, by decide⟩

/-! ## Join behavior of windows_path_to_linux (C10) -/

/-- C10 counterexample: for `w = "/c/root/w/drive_c/a"` with chroot path
`"/c"` and Wine prefix `"w"`, the slash-converted remainder is `w`
itself and is absolute, yet the returned path equals that remainder and
still lies under `<chrootPath>/root/<winePrefix>/drive_c/` — refuting
both the claimed equivalence and the "outside the chroot root" clause. -/
theorem c10_counterexample :
    windows_path_to_linux "/c/root/w/drive_c/a".data "/c".data "w".data
        = "/c/root/w/drive_c/a".data ∧
      startsWith "/c/root/w/drive_c/".data
        (windows_path_to_linux "/c/root/w/drive_c/a".data "/c".data "w".data) = true ∧
      "/c/root/w/drive_c/a".data.head? = some '/' := by decide

/-- C10 (amended): when the Wine prefix is a nonempty relative component,
the result of `windows_path_to_linux` sits under
`<chroot>/root/<wp>/drive_c/` whenever the slash-converted remainder is
relative and nonempty, and equals the remainder itself whenever the
remainder is absolute — in which case it may or may not lie under the
chroot root. -/
theorem c10_join_behavior (w chroot wp : List Char)
    (hwp : wp ≠ []) (hwph : wp.head? ≠ some '/') :
    (((if isDrivePrefixed w then w.drop 3 else w).map toFwd).head? = some '/' →
        windows_path_to_linux w chroot wp
          = (if isDrivePrefixed w then w.drop 3 else w).map toFwd) ∧
    (∀ r0 rt, (if isDrivePrefixed w then w.drop 3 else w).map toFwd = r0 :: rt → r0 ≠ '/' →
        windows_path_to_linux w chroot wp
          = (((chroot ++ '/' :: rootSeg) ++ '/' :: wp) ++ '/' :: driveSeg) ++ '/' :: r0 :: rt) := by
  obtain ⟨w0, wt, rfl⟩ : ∃ w0 wt, wp = w0 :: wt := by
    cases wp with
    | nil => exact absurd rfl hwp
    | cons a b => exact ⟨a, b, rfl⟩
  have hw0 : w0 ≠ '/' := by simpa using hwph
  constructor
  · intro habs
    obtain ⟨t, ht⟩ : ∃ t, (if isDrivePrefixed w then w.drop 3 else w).map toFwd = '/' :: t := by
      cases hm : (if isDrivePrefixed w then w.drop 3 else w).map toFwd with
      | nil => rw [hm] at habs; simp at habs
      | cons a b =>
          rw [hm] at habs
          have : a = '/' := by simpa using habs
          exact ⟨b, by rw [this]⟩
    simp only [windows_path_to_linux]
    rw [ht]
    rfl
  · intro r0 rt hrel hr0
    simp only [windows_path_to_linux]
    rw [hrel]
    rw [show pathJoin chroot rootSeg = chroot ++ '/' :: rootSeg from rfl]
    have j2 : pathJoin (chroot ++ '/' :: rootSeg) (w0 :: wt)
        = (chroot ++ '/' :: rootSeg) ++ '/' :: w0 :: wt := by
      unfold pathJoin
      simp [hw0]
    rw [j2]
    rw [show pathJoin ((chroot ++ '/' :: rootSeg) ++ '/' :: w0 :: wt) driveSeg
        = ((chroot ++ '/' :: rootSeg) ++ '/' :: w0 :: wt) ++ '/' :: driveSeg from rfl]
    unfold pathJoin
    simp [hr0]

/-- C10 witness: the relative branch of the amended statement evaluated
on the documented example conversion. -/
theorem c10_join_behavior_witness :
    windows_path_to_linux "C:\\Program Files\\app.exe".data "/srv/debian-amd64".data ".wine".data
      = ((("/srv/debian-amd64".data ++ '/' :: rootSeg) ++ '/' :: ".wine".data) ++ '/' :: driveSeg)
          ++ '/' :: 'P' :: "rogram Files/app.exe".data :=
  (c10_join_behavior "C:\\Program Files\\app.exe".data "/srv/debian-amd64".data ".wine".data
      (by decide) (by decide)).2 'P' "rogram Files/app.exe".data (by decide) (by decide)

/-! ## Lemmas about slugify (C9) -/

theorem lowerChar_fixed (c : Char) (h : slugAlphabet c = true) : lowerChar c = c := by
  unfold lowerChar
  rw [if_neg]
  intro hub
  simp only [Bool.and_eq_true, decide_eq_true_eq] at hub
  obtain ⟨hA, hZ⟩ := hub
  simp only [slugAlphabet, isSlugChar, Bool.or_eq_true, Bool.and_eq_true,
    decide_eq_true_eq, beq_iff_eq] at h
  rcases h with (⟨ha, _⟩ | ⟨_, h9⟩) | rfl
  · exact absurd (le_trans ha hZ) (by decide)
  · exact absurd (le_trans hA h9) (by decide)
  · exact absurd hA (by decide)

theorem dashMap_fixed (c : Char) (h : slugAlphabet c = true) : dashMap c = c := by
  unfold dashMap
  cases hs : isSlugChar c with
  | true => simp [hs]
  | false =>
      have hc : c = '-' := by
        simp only [slugAlphabet, hs, Bool.false_or, beq_iff_eq] at h
        exact h
      subst hc
      decide

theorem dashMap_alphabet (c : Char) : slugAlphabet (dashMap c) = true := by
  unfold slugAlphabet dashMap
  cases hs : isSlugChar c with
  | true => simp [hs]
  | false => simp

theorem noDoubleDash_tail (c : Char) (t : List Char) (h : noDoubleDash (c :: t) = true) :
    noDoubleDash t = true := by
  cases t with
  | nil => rfl
  | cons d r =>
      unfold noDoubleDash at h
      simp only [Bool.and_eq_true] at h
      exact h.2

theorem noDoubleDash_pair (c d : Char) (r : List Char)
    (h : noDoubleDash (c :: d :: r) = true) : ¬(c = '-' ∧ d = '-') := by
  unfold noDoubleDash at h
  simp only [Bool.and_eq_true] at h
  have h1 := h.1
  intro hcd
  rw [hcd.1, hcd.2] at h1
  simp at h1

theorem squeezeDash_cons₂ (c d : Char) (r : List Char) :
    squeezeDash (c :: d :: r)
      = if c = '-' ∧ d = '-' then squeezeDash (d :: r) else c :: squeezeDash (d :: r) := rfl

theorem squeezeDash_head (c : Char) (t : List Char) :
    (squeezeDash (c :: t)).head? = some c := by
  induction t generalizing c with
  | nil => rfl
  | cons d r ih =>
      rw [squeezeDash_cons₂]
      by_cases hcd : c = '-' ∧ d = '-'
      · rw [if_pos hcd, ih d, hcd.1, hcd.2]
      · rw [if_neg hcd]
        rfl

theorem squeezeDash_all (p : Char → Bool) (s : List Char) (h : s.all p = true) :
    (squeezeDash s).all p = true := by
  induction s with
  | nil => rfl
  | cons c t ih =>
      cases t with
      | nil => exact h
      | cons d r =>
          simp only [List.all_cons, Bool.and_eq_true] at h
          have ht : (d :: r).all p = true := by
            simp only [List.all_cons, Bool.and_eq_true]
            exact ⟨h.2.1, h.2.2⟩
          rw [squeezeDash_cons₂]
          by_cases hcd : c = '-' ∧ d = '-'
          · rw [if_pos hcd]
            exact ih ht
          · rw [if_neg hcd]
            simp only [List.all_cons, Bool.and_eq_true]
            exact ⟨h.1, ih ht⟩

theorem notDashPair (c d : Char) (hcd : ¬(c = '-' ∧ d = '-')) :
    (!(c == '-' && d == '-')) = true := by
  by_cases h1 : c = '-'
  · by_cases h2 : d = '-'
    · exact absurd ⟨h1, h2⟩ hcd
    · simp [h2]
  · simp [h1]

theorem squeezeDash_ndd (s : List Char) : noDoubleDash (squeezeDash s) = true := by
  induction s with
  | nil => rfl
  | cons c t ih =>
      cases t with
      | nil => rfl
      | cons d r =>
          rw [squeezeDash_cons₂]
          by_cases hcd : c = '-' ∧ d = '-'
          · rw [if_pos hcd]
            exact ih
          · rw [if_neg hcd]
            have hh := squeezeDash_head d r
            cases hq : squeezeDash (d :: r) with
            | nil => rw [hq] at hh; simp at hh
            | cons x xs =>
                rw [hq] at hh ih
                have hx : x = d := by simpa using hh
                unfold noDoubleDash
                simp only [Bool.and_eq_true]
                refine ⟨notDashPair c x ?_, ih⟩
                rw [hx]
                exact hcd

theorem squeezeDash_eq_self (s : List Char) (h : noDoubleDash s = true) :
    squeezeDash s = s := by
  induction s with
  | nil => rfl
  | cons c t ih =>
      cases t with
      | nil => rfl
      | cons d r =>
          have hpair := noDoubleDash_pair c d r h
          have ht := noDoubleDash_tail c (d :: r) h
          rw [squeezeDash_cons₂, if_neg hpair, ih ht]

theorem all_of_sublist (p : Char → Bool) {l1 l2 : List Char} (hs : l1.Sublist l2)
    (h : l2.all p = true) : l1.all p = true := by
  rw [List.all_eq_true] at h ⊢
  exact fun x hx => h x (hs.subset hx)

theorem dropWhile_dash_head (s : List Char) (x : Char)
    (h : (s.dropWhile (fun c => c = '-')).head? = some x) : x ≠ '-' := by
  induction s with
  | nil => simp at h
  | cons c t ih =>
      by_cases hc : c = '-'
      · rw [List.dropWhile_cons_of_pos (by simp [hc])] at h
        exact ih h
      · rw [List.dropWhile_cons_of_neg (by simp [hc])] at h
        have hx : c = x := by simpa using h
        rw [← hx]
        exact hc

theorem dropWhile_dash_ndd (s : List Char) (h : noDoubleDash s = true) :
    noDoubleDash (s.dropWhile (fun c => c = '-')) = true := by
  induction s with
  | nil => rfl
  | cons c t ih =>
      by_cases hc : c = '-'
      · rw [List.dropWhile_cons_of_pos (by simp [hc])]
        exact ih (noDoubleDash_tail c t h)
      · rw [List.dropWhile_cons_of_neg (by simp [hc])]
        exact h

theorem dropWhile_dash_eq_self (s : List Char) (h : s.head? ≠ some '-') :
    s.dropWhile (fun c => c = '-') = s := by
  cases s with
  | nil => rfl
  | cons c t =>
      have hc : c ≠ '-' := fun e => h (by simp [e])
      exact List.dropWhile_cons_of_neg (by simp [hc])

theorem dropTrail_cons (c : Char) (t : List Char) :
    dropTrail (c :: t)
      = match dropTrail t with
        | [] => if c = '-' then [] else [c]
        | r => c :: r := rfl

theorem dropTrail_cons_nil_pos (c : Char) (t : List Char) (hq : dropTrail t = [])
    (hc : c = '-') : dropTrail (c :: t) = [] := by
  rw [dropTrail_cons, hq]
  simp [hc]

theorem dropTrail_cons_nil_neg (c : Char) (t : List Char) (hq : dropTrail t = [])
    (hc : ¬ c = '-') : dropTrail (c :: t) = [c] := by
  rw [dropTrail_cons, hq]
  simp [hc]

theorem dropTrail_cons_cons (c : Char) (t : List Char) (y : Char) (ys : List Char)
    (hq : dropTrail t = y :: ys) : dropTrail (c :: t) = c :: y :: ys := by
  rw [dropTrail_cons, hq]

theorem dropTrail_all (p : Char → Bool) (s : List Char) (h : s.all p = true) :
    (dropTrail s).all p = true := by
  induction s with
  | nil => rfl
  | cons c t ih =>
      simp only [List.all_cons, Bool.and_eq_true] at h
      have hrec := ih h.2
      cases hq : dropTrail t with
      | nil =>
          by_cases hc : c = '-'
          · rw [dropTrail_cons_nil_pos c t hq hc]
            rfl
          · rw [dropTrail_cons_nil_neg c t hq hc]
            simp [h.1]
      | cons x xs =>
          rw [dropTrail_cons_cons c t x xs hq]
          rw [hq] at hrec
          simp only [List.all_cons, Bool.and_eq_true]
          refine ⟨h.1, ?_⟩
          simpa only [List.all_cons, Bool.and_eq_true] using hrec

theorem dropTrail_head (s : List Char) (x : Char) (t : List Char)
    (h : dropTrail s = x :: t) : s.head? = some x := by
  cases s with
  | nil => simp [dropTrail] at h
  | cons c r =>
      cases hq : dropTrail r with
      | nil =>
          by_cases hc : c = '-'
          · rw [dropTrail_cons_nil_pos c r hq hc] at h
            simp at h
          · rw [dropTrail_cons_nil_neg c r hq hc] at h
            cases h
            rfl
      | cons y ys =>
          rw [dropTrail_cons_cons c r y ys hq] at h
          cases h
          rfl

theorem dropTrail_ndd (s : List Char) (h : noDoubleDash s = true) :
    noDoubleDash (dropTrail s) = true := by
  induction s with
  | nil => rfl
  | cons c t ih =>
      have ht := noDoubleDash_tail c t h
      have hrec := ih ht
      cases hq : dropTrail t with
      | nil =>
          by_cases hc : c = '-'
          · rw [dropTrail_cons_nil_pos c t hq hc]
            rfl
          · rw [dropTrail_cons_nil_neg c t hq hc]
            rfl
      | cons x xs =>
          rw [dropTrail_cons_cons c t x xs hq]
          rw [hq] at hrec
          have hx : t.head? = some x := dropTrail_head t x xs hq
          cases t with
          | nil => simp [dropTrail] at hq
          | cons d r =>
              have hdx : d = x := by simpa using hx
              subst hdx
              have hpair := noDoubleDash_pair c d r h
              unfold noDoubleDash
              simp only [Bool.and_eq_true]
              exact ⟨notDashPair c d hpair, hrec⟩

theorem dropTrail_last (s : List Char) (x : Char)
    (h : (dropTrail s).getLast? = some x) : x ≠ '-' := by
  induction s with
  | nil => simp [dropTrail] at h
  | cons c t ih =>
      cases hq : dropTrail t with
      | nil =>
          by_cases hc : c = '-'
          · rw [dropTrail_cons_nil_pos c t hq hc] at h
            simp at h
          · rw [dropTrail_cons_nil_neg c t hq hc] at h
            have hxc : c = x := by simpa using h
            rw [← hxc]
            exact hc
      | cons y ys =>
          rw [dropTrail_cons_cons c t y ys hq] at h
          rw [List.getLast?_cons_cons] at h
          rw [← hq] at h
          exact ih h

theorem dropTrail_eq_self (s : List Char) (h : s.getLast? ≠ some '-') :
    dropTrail s = s := by
  induction s with
  | nil => rfl
  | cons c t ih =>
      cases t with
      | nil =>
          have hc : c ≠ '-' := fun e => h (by simp [e])
          exact dropTrail_cons_nil_neg c [] rfl hc
      | cons d r =>
          have ht : (d :: r).getLast? ≠ some '-' := by
            rw [List.getLast?_cons_cons] at h
            exact h
          exact dropTrail_cons_cons c (d :: r) d r (ih ht)

theorem head_eq_cons (l : List Char) (x : Char) (h : l.head? = some x) :
    ∃ t, l = x :: t := by
  cases l with
  | nil => simp at h
  | cons a b =>
      have : a = x := by simpa using h
      exact ⟨b, by rw [this]⟩

theorem map_lower_eq_self (s : List Char) (h : s.all slugAlphabet = true) :
    s.map lowerChar = s := by
  induction s with
  | nil => rfl
  | cons c t ih =>
      simp only [List.all_cons, Bool.and_eq_true] at h
      simp [lowerChar_fixed c h.1, ih h.2]

theorem map_dash_eq_self (s : List Char) (h : s.all slugAlphabet = true) :
    s.map dashMap = s := by
  induction s with
  | nil => rfl
  | cons c t ih =>
      simp only [List.all_cons, Bool.and_eq_true] at h
      simp [dashMap_fixed c h.1, ih h.2]

theorem slug_all_alphabet (s : List Char) : (slugify s).all slugAlphabet = true := by
  unfold slugify stripDash
  apply dropTrail_all
  apply all_of_sublist _ (List.dropWhile_sublist _)
  apply squeezeDash_all
  rw [List.all_eq_true]
  intro x hx
  rcases List.mem_map.mp hx with ⟨c, _, rfl⟩
  exact dashMap_alphabet c

theorem slug_ndd (s : List Char) : noDoubleDash (slugify s) = true := by
  unfold slugify stripDash
  apply dropTrail_ndd
  apply dropWhile_dash_ndd
  exact squeezeDash_ndd _

theorem slug_head (s : List Char) (x : Char) (h : (slugify s).head? = some x) :
    x ≠ '-' := by
  unfold slugify stripDash at h
  obtain ⟨t, ht⟩ := head_eq_cons _ _ h
  have := dropTrail_head _ _ _ ht
  exact dropWhile_dash_head _ _ this

theorem slug_last (s : List Char) (x : Char) (h : (slugify s).getLast? = some x) :
    x ≠ '-' := by
  unfold slugify stripDash at h
  exact dropTrail_last _ _ h

theorem slugify_fixed (t : List Char)
    (hall : t.all slugAlphabet = true) (hndd : noDoubleDash t = true)
    (hhead : t.head? ≠ some '-') (hlast : t.getLast? ≠ some '-') :
    slugify t = t := by
  unfold slugify
  rw [map_lower_eq_self t hall, map_dash_eq_self t hall, squeezeDash_eq_self t hndd]
  unfold stripDash
  rw [dropWhile_dash_eq_self t hhead, dropTrail_eq_self t hlast]

theorem slugShaped_of (t : List Char) (hne : t ≠ [])
    (hall : t.all slugAlphabet = true) (hndd : noDoubleDash t = true)
    (hhead : t.head? ≠ some '-') (hlast : t.getLast? ≠ some '-') :
    slugShaped t = true := by
  unfold slugShaped
  cases t with
  | nil => exact absurd rfl hne
  | cons c r =>
      simp only [Bool.and_eq_true]
      refine ⟨⟨⟨⟨?_, ?_⟩, ?_⟩, ?_⟩, hndd⟩
      · simp
      · simpa [slugAlphabet] using hall
      · have hc : c ≠ '-' := fun e => hhead (by simp [e])
        simp [hc]
      · cases hg : (c :: r).getLast? with
        | none => simp
        | some y =>
            have hy : y ≠ '-' := fun e => hlast (by rw [hg, e])
            simp [hy]

/-- C9: `slugify` is idempotent and its output is empty or matches
`^[a-z0-9]+(-[a-z0-9]+)*$`. -/
theorem c9_slugify (s : List Char) :
    slugify (slugify s) = slugify s ∧
      (slugify s = [] ∨ slugShaped (slugify s) = true) := by
  have hall := slug_all_alphabet s
  have hndd := slug_ndd s
  have hhead : (slugify s).head? ≠ some '-' := by
    intro e
    exact slug_head s '-' e rfl
  have hlast : (slugify s).getLast? ≠ some '-' := by
    intro e
    exact slug_last s '-' e rfl
  refine ⟨slugify_fixed _ hall hndd hhead hlast, ?_⟩
  by_cases he : slugify s = []
  · exact Or.inl he
  · exact Or.inr (slugShaped_of _ he hall hndd hhead hlast)

/-! ## Bootstrapper claims (C1, C4, C5) -/

/-- C1 counterexample: in dry-run mode with an existing target path,
`initialize` returns failure (not success), and the run still invoked one
process-execution primitive — the `sudo -n true` probe that
`check_root_access` performs before the dry-run short-circuit of any
step. -/
theorem c1_counterexample :
    (initChroot envPathTaken false true).fst = false ∧
      (initChroot envPathTaken false true).snd.total ≠ 0 := by decide

/-- C1 (amended): with dry_run set, provided the prerequisite gate passes
and the target path is free, `initialize` reports success and the only
process-execution primitive invoked in the whole run is the single
`sudo -n true` probe of `check_root_access`; every bootstrap step is a
reporting no-op with zero invocations. -/
theorem c1_dry_run (env : ChrootEnv) (skip_wine : Bool)
    (h1 : env.prereqs_ok = true) (h2 : env.path_exists = false) :
    initChroot env skip_wine true = (true, ⟨1, 0, 0, 0, 0, 0, 0, 0, 0⟩) := by
  unfold initChroot run_debootstrap configure_schroot configure_fstab configure_locales
    configure_repositories enable_i386 install_wine
  cases skip_wine <;> simp [h1, h2]

/-- C1 witness: the amended statement evaluated on a concrete passing
environment. -/
theorem c1_dry_run_witness :
    initChroot ⟨true, false, false, false, false, false, false, false, false, false,
        false, false, false, false, false, false, false, false⟩ false true
      = (true, ⟨1, 0, 0, 0, 0, 0, 0, 0, 0⟩) :=
  c1_dry_run _ false rfl rfl

/-- C4: whenever the target chroot path already exists, `initialize`
returns failure and invokes none of the bootstrap step commands — in
particular debootstrap is never invoked, so nothing is overwritten. -/
theorem c4_path_exists (env : ChrootEnv) (skip_wine dry_run : Bool)
    (h : env.path_exists = true) :
    (initChroot env skip_wine dry_run).fst = false ∧
      (initChroot env skip_wine dry_run).snd.deboot = 0 ∧
      (initChroot env skip_wine dry_run).snd.schrootConf = 0 ∧
      (initChroot env skip_wine dry_run).snd.fstab = 0 ∧
      (initChroot env skip_wine dry_run).snd.locales = 0 ∧
      (initChroot env skip_wine dry_run).snd.repos = 0 ∧
      (initChroot env skip_wine dry_run).snd.arch32 = 0 ∧
      (initChroot env skip_wine dry_run).snd.wine = 0 ∧
      (initChroot env skip_wine dry_run).snd.verify = 0 := by
  unfold initChroot
  cases hp : env.prereqs_ok <;> simp [h, hp]

/-- C4 witness: an all-succeeding environment whose target path exists. -/
theorem c4_path_exists_witness :
    (initChroot envPathTaken false false).fst = false ∧
      (initChroot envPathTaken false false).snd.deboot = 0 ∧
      (initChroot envPathTaken false false).snd.schrootConf = 0 ∧
      (initChroot envPathTaken false false).snd.fstab = 0 ∧
      (initChroot envPathTaken false false).snd.locales = 0 ∧
      (initChroot envPathTaken false false).snd.repos = 0 ∧
      (initChroot envPathTaken false false).snd.arch32 = 0 ∧
      (initChroot envPathTaken false false).snd.wine = 0 ∧
      (initChroot envPathTaken false false).snd.verify = 0 :=
  c4_path_exists envPathTaken false false rfl

theorem configure_locales_ok (env : ChrootEnv) (dry : Bool) :
    (configure_locales env dry).ok = true := by
  unfold configure_locales
  cases dry <;> cases env.loc_update_ok <;> cases env.loc_install_ok <;>
    cases env.loc_gen_ok <;> rfl

theorem configure_repositories_ok (env : ChrootEnv) (dry : Bool) :
    (configure_repositories env dry).ok = true := by
  unfold configure_repositories
  cases dry <;> cases env.repo_tee_ok <;> cases env.repo_update_ok <;> rfl

theorem enable_i386_ok (env : ChrootEnv) (dry : Bool) :
    (enable_i386 env dry).ok = true := by
  unfold enable_i386
  cases dry <;> cases env.arch_add_ok <;> cases env.arch_update_ok <;> rfl

theorem configure_fstab_ok (env : ChrootEnv)
    (ha : env.fstab_cp_ok = true) (hb : env.fstab_tee_ok = true) :
    (configure_fstab env false).ok = true := by
  unfold configure_fstab
  cases he : env.fstab_exists <;> simp [ha, hb]

theorem configure_locales_warns (env : ChrootEnv) (hf : env.loc_update_ok = false) :
    (configure_locales env false).warned = true := by
  unfold configure_locales
  simp [hf]

theorem configure_repositories_warns (env : ChrootEnv) (hf : env.repo_tee_ok = false) :
    (configure_repositories env false).warned = true := by
  unfold configure_repositories
  simp [hf]

theorem enable_i386_warns (env : ChrootEnv) (hf : env.arch_add_ok = false) :
    (enable_i386 env false).warned = true := by
  unfold enable_i386
  simp [hf]

/-- C5: the three soft steps report success to the sequencer whatever
their external commands do, a failing soft-step command only raises the
step's warning flag, and when every hard gate passes the sequence
reaches the Wine-installation step (exactly one Wine install invocation)
and `initialize` reports overall success — regardless of the soft-step
outcome fields of the environment. -/
theorem c5_soft_steps (env : ChrootEnv)
    (h1 : env.prereqs_ok = true) (h2 : env.path_exists = false)
    (h3 : env.deboot_ok = true) (h4 : env.schroot_tee_ok = true)
    (h5a : env.fstab_cp_ok = true) (h5b : env.fstab_tee_ok = true)
    (h6 : env.wine_install_ok = true) :
    ((configure_locales env false).ok = true ∧
      (configure_repositories env false).ok = true ∧
      (enable_i386 env false).ok = true) ∧
    ((env.loc_update_ok = false → (configure_locales env false).warned = true) ∧
      (env.repo_tee_ok = false → (configure_repositories env false).warned = true) ∧
      (env.arch_add_ok = false → (enable_i386 env false).warned = true)) ∧
    (initChroot env false false).fst = true ∧
    (initChroot env false false).snd.wine = 1 := by
  refine ⟨⟨configure_locales_ok env false, configure_repositories_ok env false,
    enable_i386_ok env false⟩,
    ⟨configure_locales_warns env, configure_repositories_warns env,
      enable_i386_warns env⟩, ?_⟩
  unfold initChroot
  simp [h1, h2, run_debootstrap, h3, configure_schroot, h4,
    configure_fstab_ok env h5a h5b, configure_locales_ok, configure_repositories_ok,
    enable_i386_ok, install_wine, h6]

/-- C5 witness: every soft step's external commands fail, every hard gate
passes; the sequence still reports success and installs Wine. -/
theorem c5_soft_steps_witness :
    ((configure_locales
        ⟨true, true, false, true, true, false, true, true, false, false, false, false,
          false, false, false, true, true, true⟩ false).ok = true ∧
      (configure_repositories
        ⟨true, true, false, true, true, false, true, true, false, false, false, false,
          false, false, false, true, true, true⟩ false).ok = true ∧
      (enable_i386
        ⟨true, true, false, true, true, false, true, true, false, false, false, false,
          false, false, false, true, true, true⟩ false).ok = true) ∧
    (((⟨true, true, false, true, true, false, true, true, false, false, false, false,
          false, false, false, true, true, true⟩ : ChrootEnv).loc_update_ok = false →
        (configure_locales
          ⟨true, true, false, true, true, false, true, true, false, false, false, false,
            false, false, false, true, true, true⟩ false).warned = true) ∧
      ((⟨true, true, false, true, true, false, true, true, false, false, false, false,
          false, false, false, true, true, true⟩ : ChrootEnv).repo_tee_ok = false →
        (configure_repositories
          ⟨true, true, false, true, true, false, true, true, false, false, false, false,
            false, false, false, true, true, true⟩ false).warned = true) ∧
      ((⟨true, true, false, true, true, false, true, true, false, false, false, false,
          false, false, false, true, true, true⟩ : ChrootEnv).arch_add_ok = false →
        (enable_i386
          ⟨true, true, false, true, true, false, true, true, false, false, false, false,
            false, false, false, true, true, true⟩ false).warned = true)) ∧
    (initChroot
        ⟨true, true, false, true, true, false, true, true, false, false, false, false,
          false, false, false, true, true, true⟩ false false).fst = true ∧
    (initChroot
        ⟨true, true, false, true, true, false, true, true, false, false, false, false,
          false, false, false, true, true, true⟩ false false).snd.wine = 1 :=
  c5_soft_steps _ rfl rfl rfl rfl rfl rfl rfl

/-! ## Runner claim (C7) -/

/-- C7: when `wait` or `show_terminal` is requested the command runs
synchronously and the child's exit code is returned verbatim; otherwise
the process is detached into the background in a new session and the
call returns 0 immediately — provided the privilege tool spawns at all. -/
theorem c7_exec_modes (env : RunEnv) (wait show_terminal : Bool)
    (h : env.spawn_ok = true) :
    ((wait || show_terminal) = true →
        wineRunnerRun env wait show_terminal = RunOutcome.exited env.child_code ExecMode.sync) ∧
    ((wait || show_terminal) = false →
        wineRunnerRun env wait show_terminal = RunOutcome.exited 0 ExecMode.background) := by
  unfold wineRunnerRun
  constructor
  · intro hw
    simp [h, hw]
  · intro hw
    simp [h, hw]

/-- C7 witness: a synchronous run propagates the concrete exit code 42. -/
theorem c7_exec_modes_witness :
    wineRunnerRun ⟨true, 42⟩ true false = RunOutcome.exited 42 ExecMode.sync :=
  (c7_exec_modes ⟨true, 42⟩ true false rfl).1 rfl

/-! ## Icon claim (C8) -/

/-- C8: whenever the pipeline produced zero PNG files — in particular
when any earlier stage already failed — `extract_icon` returns `none`,
copies nothing into the destination icon directory and does not even
create it. -/
theorem c8_no_pngs (env : IconEnv) (icon_dir icon_name : List Char)
    (h : env.pngs = []) :
    extract_icon env icon_dir icon_name = ⟨none, none, false⟩ := by
  unfold extract_icon
  cases env.wrestool_found <;> cases env.icotool_found <;> cases env.wrestool_ok <;>
    cases env.ico_exists <;> cases env.icotool_ok <;> simp [h, sortStrs]

/-- C8 witness: both tools present and both stages succeeding, yet zero
PNG files produced. -/
theorem c8_no_pngs_witness :
    extract_icon ⟨true, true, true, true, true, []⟩ "/home/u/.local/share/icons".data
        "my-app".data
      = ⟨none, none, false⟩ :=
  c8_no_pngs _ _ _ rfl

/-! ## Launcher claim (C6) -/

theorem containsSub_cons_of (pat s : List Char) (c : Char)
    (h : containsSub pat s = true) : containsSub pat (c :: s) = true := by
  unfold containsSub at h ⊢
  unfold splitFirst
  split
  · rfl
  · cases hm : splitFirst pat s with
    | none => rw [hm] at h; simp at h
    | some pr => simp [hm]

theorem containsSub_append_left (pat s a : List Char) (h : containsSub pat s = true) :
    containsSub pat (a ++ s) = true := by
  induction a with
  | nil => simpa using h
  | cons c t ih => exact containsSub_cons_of pat (t ++ s) c ih

theorem containsSub_self_append (pat t : List Char) (hpat : pat ≠ []) :
    containsSub pat (pat ++ t) = true := by
  match pat, hpat with
  | a :: as, _ =>
      show containsSub (a :: as) (a :: (as ++ t)) = true
      unfold containsSub splitFirst
      rw [show a :: (as ++ t) = (a :: as) ++ t from rfl, startsWith_append]
      rfl

theorem containsSub_nil_cons (c : Char) (t : List Char) :
    containsSub [] (c :: t) = true := rfl

theorem containsSub_nil (s : List Char) (hs : s ≠ []) : containsSub [] s = true := by
  match s, hs with
  | c :: t, _ => rfl

theorem append_ne_nil_left (a b : List Char) (h : a ≠ []) : a ++ b ≠ [] := by
  cases a with
  | nil => exact absurd rfl h
  | cons x xs => simp

/-- C6: the `Exec` line of every launcher embeds the configured chroot
name and the translated path inside double quotes, for either privilege
tool; and on the documented end-to-end example the launcher filename is
`my-app.desktop` and the `Exec` line contains
`schroot -c debian-amd64 -- wine "C:\Program Files\App\App.exe"`. -/
theorem c6_exec_line (usePk : Bool) (chrootName exe : List Char) :
    (containsSub chrootName (execLine usePk chrootName (linux_path_to_windows exe)) = true ∧
      containsSub ('"' :: linux_path_to_windows exe ++ ['"'])
        (execLine usePk chrootName (linux_path_to_windows exe)) = true) ∧
    desktopFileName "My App!".data none = "my-app.desktop".data ∧
    containsSub "schroot -c debian-amd64 -- wine \"C:\\Program Files\\App\\App.exe\"".data
      (execLine false "debian-amd64".data
        (linux_path_to_windows
          "/srv/debian-amd64/root/.wine/drive_c/Program Files/App/App.exe".data)) = true := by
  refine ⟨⟨?_, ?_⟩, by decide, by decide⟩
  · have hform : execLine usePk chrootName (linux_path_to_windows exe)
        = ("Exec=".data ++ (if usePk then "pkexec".data else "sudo".data)
            ++ " schroot -c ".data)
          ++ (chrootName ++ (" -- wine ".data
            ++ ('"' :: linux_path_to_windows exe ++ ['"']))) := by
      unfold execLine
      simp [List.append_assoc]
    rw [hform]
    apply containsSub_append_left
    cases hn : chrootName with
    | nil =>
        rw [List.nil_append]
        exact containsSub_nil _ (append_ne_nil_left _ _ (by decide))
    | cons c t =>
        exact containsSub_self_append (c :: t) _ (by simp)
  · unfold execLine
    exact containsSub_append_left _ _ _
      (by simpa using
        containsSub_self_append ('"' :: linux_path_to_windows exe ++ ['"']) [] (by simp))
